import Mathlib

/-!
Verification development for the OTDR simulator (`src/index.tsx`).

The physics/acquisition core of the simulator is shallowly embedded here:
JavaScript numbers are modelled as rationals (`ℚ`), `Math.random()` is an
explicit oracle `rng : ℕ → ℚ` (one draw per sample index), and
`Math.log10(pulseWidth)` — a transcendental value — is passed in as an
explicit parameter `log10PulseWidth`.  All definitions follow the source
file; definitions that instead follow the specification's words are marked
as such in their doc comments.
-/

namespace OTDR

/-- Event types, from `type EventType` in the source.  The source's `'end'`
is a Lean keyword, so it is named `fiberEnd` here. -/
inductive EventType where
  | connector
  | splice
  | bend
  | fiberEnd
  | cut
  | start
  | degradation
deriving DecidableEq, Repr

/-- `interface FiberEvent` from the source. -/
structure FiberEvent where
  id : String
  type : EventType
  distance : ℚ
  loss : ℚ
  reflectance : ℚ
deriving DecidableEq, Repr

/-- The fields of `interface SimulationConfig` read by the modelled core
(`averaging`, `autoMode` and `testDuration` are not read by the synthesizer
or analyzer and are omitted). -/
structure SimulationConfig where
  range : ℚ
  pulseWidth : ℚ
  wavelength : ℕ
  ior : ℚ
  noiseFloor : ℚ
deriving DecidableEq, Repr

/-- `interface TracePoint` from the source. -/
structure TracePoint where
  x : ℚ
  y : ℚ
deriving DecidableEq, Repr

/-- `const numPoints = 4000` in `calculateSingleTrace`. -/
def numPoints : ℕ := 4000

/-- `calculateAttenuation` from the source:
`wavelength === 1310 ? 0.35 : 0.20`. -/
def calculateAttenuation (wavelength : ℕ) : ℚ :=
  if wavelength = 1310 then 0.35 else 0.20

/-- Stable insertion of an event into a distance-sorted list: the new
element is placed before the first element whose distance is not smaller.
Together with `sortByDistance` this models the JavaScript
`events.sort((a, b) => a.distance - b.distance)` (a stable sort by
ascending distance). -/
def insertByDistance (e : FiberEvent) : List FiberEvent → List FiberEvent
  | [] => [e]
  | f :: rest =>
      if f.distance < e.distance then f :: insertByDistance e rest
      else e :: f :: rest

/-- Stable sort by ascending distance, modelling
`[...events].sort((a, b) => a.distance - b.distance)`. -/
def sortByDistance : List FiberEvent → List FiberEvent
  | [] => []
  | e :: rest => insertByDistance e (sortByDistance rest)

/-- The synthesizer's effective event list (`calculateSingleTrace`):
sort, then if a cut is active keep only events strictly before the cut and
append the synthetic `cut-point` event with loss `50`, reflectance `-14`. -/
def effectiveEventsSynth (events : List FiberEvent) (cut : Option ℚ) :
    List FiberEvent :=
  let sorted := sortByDistance events
  match cut with
  | none => sorted
  | some c =>
      sorted.filter (fun e => decide (e.distance < c)) ++
        [{ id := "cut-point", type := EventType.cut, distance := c,
           loss := 50, reflectance := -14 }]

/-- `effectiveEndDistance` in `calculateSingleTrace`:
`sortedEvents.find(e => e.type === 'end')?.distance || config.range`, then
overwritten with the cut distance when a cut is active.  The JavaScript
`||` falls back to `config.range` both when no `end` event exists and when
the found `end` event's distance is `0` (falsy). -/
def effectiveEndDistanceOf (events : List FiberEvent) (cut : Option ℚ)
    (range : ℚ) : ℚ :=
  match cut with
  | some c => c
  | none =>
      match (sortByDistance events).find?
          (fun e => decide (e.type = EventType.fiberEnd)) with
      | some e => if e.distance = 0 then range else e.distance
      | none => range

/-- `Math.max` on two rationals, written with an explicit `if` so that all
definitions below evaluate inside the kernel. -/
def jsMax (a b : ℚ) : ℚ := if a ≤ b then b else a

/-- `noiseAmplitude` in `calculateSingleTrace`, as a function of the value
of `Math.log10(config.pulseWidth)`:
`noiseReductionFactor = log10(pulseWidth) / 2;`
`noiseAmplitude = Math.max(0.5, 5.0 / (noiseReductionFactor || 1))`.
The JavaScript `x || 1` replaces a zero factor by `1`; it is NOT
`max(1, x)`. -/
def noiseAmplitudeOf (log10PulseWidth : ℚ) : ℚ :=
  let noiseReductionFactor := log10PulseWidth / 2
  jsMax 0.5 (5.0 / (if noiseReductionFactor = 0 then 1 else noiseReductionFactor))

/-- Modelled from the spec's words for claim C2 only:
`noiseAmplitude = max(0.5, 5.0 / max(1, log10(pulseWidth)/2))`.
This is the formula the claim asserts; it is compared against
`noiseAmplitudeOf`, which is the code's formula. -/
def noiseAmplitudeClaimed (log10PulseWidth : ℚ) : ℚ :=
  jsMax 0.5 (5.0 / jsMax 1 (log10PulseWidth / 2))

/-- `pulseLengthKm = (speedOfLightKmS * pulseWidthSeconds) / groupIndex`
with `speedOfLightKmS = 299792.458` and
`pulseWidthSeconds = pulseWidth * 1e-9`. -/
def pulseLengthKmOf (cfg : SimulationConfig) : ℚ :=
  (299792.458 * (cfg.pulseWidth * (1 / 1000000000))) / cfg.ior

/-- The guarded dead-zone denominator `(eventDeadZone || 0.001)` from
`const ratio = remainingDist / (eventDeadZone || 0.001)`. -/
def deadZoneDenom (dz : ℚ) : ℚ :=
  if dz = 0 then 0.001 else dz

/-- The per-shot constants of `calculateSingleTrace`, computed once before
the sample loop. -/
structure ShotCtx where
  stepSize : ℚ
  attenuationCoeff : ℚ
  eventDeadZone : ℚ
  noiseAmplitude : ℚ
  noiseFloor : ℚ
  effectiveEndDistance : ℚ
  events : List FiberEvent
  rng : ℕ → ℚ

/-- The mutable loop variables of `calculateSingleTrace`. -/
structure ShotState where
  currentPower : ℚ
  eventIndex : ℕ
  deadZoneActiveUntil : ℚ
  powerAtSaturation : ℚ
deriving DecidableEq, Repr

/-- Loop variables before the first sample:
`currentPower = 0; eventIndex = 0; deadZoneActiveUntil = -1;
powerAtSaturation = 0`. -/
def initialShotState : ShotState :=
  { currentPower := 0, eventIndex := 0
    deadZoneActiveUntil := -1, powerAtSaturation := 0 }

/-- `sortedEvents[eventIndex]` when it exists and `d >= activeEvent.distance`:
the event (at most one per sample) triggered at sample `i`. -/
def triggeredEvent (ctx : ShotCtx) (s : ShotState) (i : ℕ) :
    Option FiberEvent :=
  match ctx.events.get? s.eventIndex with
  | none => none
  | some e => if e.distance ≤ (i : ℚ) * ctx.stepSize then some e else none

/-- All intermediate values of one iteration of the sample loop in
`calculateSingleTrace`, exposed so theorems can speak about individual
stages (loss step, dead-zone blend, reflection peak, past-end clamp,
noise). -/
structure SampleStep where
  d : ℚ
  idealPower : ℚ
  reflectionAdd : ℚ
  justTriggered : Bool
  deadUntil : ℚ
  powerSat : ℚ
  currentPowerNext : ℚ
  eventIndexNext : ℕ
  blended : ℚ
  deadUntilAfter : ℚ
  withPeak : ℚ
  clamped : ℚ
  noise : ℚ
  value : ℚ

/-- The tail of one loop iteration, shared by the triggered / untriggered
branches: dead-zone ring-down blend, reflection peak, past-end clamp,
noise and noise-floor handling. -/
def shotSampleRest (ctx : ShotCtx) (i : ℕ) (d ideal reflAdd : ℚ)
    (justTriggered : Bool) (deadUntil powerSat currentPowerNext : ℚ)
    (eventIndexNext : ℕ) : SampleStep :=
  let blendPair : ℚ × ℚ :=
    if d < deadUntil then
      let remainingDist := deadUntil - d
      let ratio := remainingDist / deadZoneDenom ctx.eventDeadZone
      (ideal + ratio ^ 4 * (powerSat - ideal), deadUntil)
    else (ideal, -1)
  let withPeak := if justTriggered then blendPair.1 + reflAdd else blendPair.1
  let clamped := if ctx.effectiveEndDistance < d then ctx.noiseFloor else withPeak
  let noise := (ctx.rng i - 0.5) * ctx.noiseAmplitude
  let value :=
    if clamped + noise < ctx.noiseFloor then ctx.noiseFloor + noise
    else clamped + noise
  { d := d, idealPower := ideal, reflectionAdd := reflAdd
    justTriggered := justTriggered, deadUntil := deadUntil
    powerSat := powerSat, currentPowerNext := currentPowerNext
    eventIndexNext := eventIndexNext, blended := blendPair.1
    deadUntilAfter := blendPair.2, withPeak := withPeak
    clamped := clamped, noise := noise, value := value }

/-- One iteration of the sample loop of `calculateSingleTrace` at sample
index `i` (distance `d = i * stepSize`).  When an event triggers
(`d >= activeEvent.distance`), its loss is subtracted from the running
power and, if its `reflectance > -65`, the dead-zone window is (re)armed
with `spikeHeight = reflectance + 75` and the spike is also added at this
sample. -/
def shotSampleStep (ctx : ShotCtx) (s : ShotState) (i : ℕ) : SampleStep :=
  let d : ℚ := (i : ℚ) * ctx.stepSize
  let ideal0 := s.currentPower - ctx.attenuationCoeff * d
  match triggeredEvent ctx s i with
  | some e =>
      let currentPower1 := s.currentPower - e.loss
      let ideal1 := ideal0 - e.loss
      let trig : ℚ × ℚ × ℚ :=
        if -65 < e.reflectance then
          let spikeHeight := e.reflectance + 75
          (e.distance + ctx.eventDeadZone, ideal1 + spikeHeight, spikeHeight)
        else (s.deadZoneActiveUntil, s.powerAtSaturation, 0)
      shotSampleRest ctx i d ideal1 trig.2.2 true trig.1 trig.2.1
        currentPower1 (s.eventIndex + 1)
  | none =>
      shotSampleRest ctx i d ideal0 0 false s.deadZoneActiveUntil
        s.powerAtSaturation s.currentPower s.eventIndex

/-- One sample: the emitted y-value and the next loop state. -/
def shotSample (ctx : ShotCtx) (s : ShotState) (i : ℕ) : ℚ × ShotState :=
  let st := shotSampleStep ctx s i
  (st.value,
    { currentPower := st.currentPowerNext, eventIndex := st.eventIndexNext
      deadZoneActiveUntil := st.deadUntilAfter
      powerAtSaturation := st.powerSat })

/-- The sample loop: `n` samples starting at index `i` from state `s`. -/
def shotFrom (ctx : ShotCtx) : ShotState → ℕ → ℕ → List ℚ
  | _, _, 0 => []
  | s, i, n + 1 =>
      let p := shotSample ctx s i
      p.1 :: shotFrom ctx p.2 (i + 1) n

/-- The per-shot constants of `calculateSingleTrace` for a given config,
topology, cut overlay, value of `Math.log10(pulseWidth)` and random
oracle. -/
def shotCtxOf (cfg : SimulationConfig) (events : List FiberEvent)
    (cut : Option ℚ) (log10PulseWidth : ℚ) (rng : ℕ → ℚ) : ShotCtx :=
  { stepSize := cfg.range / (numPoints : ℚ)
    attenuationCoeff := calculateAttenuation cfg.wavelength
    eventDeadZone := pulseLengthKmOf cfg * 1.5
    noiseAmplitude := noiseAmplitudeOf log10PulseWidth
    noiseFloor := cfg.noiseFloor
    effectiveEndDistance := effectiveEndDistanceOf events cut cfg.range
    events := effectiveEventsSynth events cut
    rng := rng }

/-- `calculateSingleTrace` from the source: one noisy shot of `numPoints`
samples. -/
def calculateSingleTrace (cfg : SimulationConfig) (events : List FiberEvent)
    (cut : Option ℚ) (log10PulseWidth : ℚ) (rng : ℕ → ℚ) : List ℚ :=
  shotFrom (shotCtxOf cfg events cut log10PulseWidth rng)
    initialShotState 0 numPoints

/-- The default topology from the source (`useState<FiberEvent[]>`). -/
def defaultEvents : List FiberEvent :=
  [ { id := "start", type := EventType.start, distance := 0,
      loss := 0.5, reflectance := -35 },
    { id := "e1", type := EventType.splice, distance := 5.2,
      loss := 0.1, reflectance := -99 },
    { id := "e2", type := EventType.connector, distance := 12.5,
      loss := 0.5, reflectance := -40 },
    { id := "end", type := EventType.fiberEnd, distance := 18,
      loss := 0, reflectance := -14 } ]

/-- One row of the analysis table pushed by `analyzeTrace`.  The display
strings are modelled by the numeric value together with a flag:
`reflectanceShown` is `reflectance > -60` (the source shows `'---'`
otherwise) and `lossShownAsCut` is `type === 'cut'` (the source shows
`'> 50.0'` instead of the numeric loss in that case). -/
structure AnalysisRecord where
  no : ℕ
  type : EventType
  location : ℚ
  reflectanceShown : Bool
  reflectance : ℚ
  lossShownAsCut : Bool
  loss : ℚ
  cumLoss : ℚ
deriving DecidableEq, Repr

/-- `actualEvents` in `analyzeTrace`: when a cut is active, keep only
events strictly before the cut and append the synthetic `cut` event —
note its `loss` field is `0` there (the synthesizer's synthetic cut uses
`loss: 50`). -/
def analyzerEvents (events : List FiberEvent) (cut : Option ℚ) :
    List FiberEvent :=
  match cut with
  | none => events
  | some c =>
      events.filter (fun e => decide (e.distance < c)) ++
        [{ id := "cut", type := EventType.cut, distance := c,
           loss := 0, reflectance := -14 }]

/-- The loop body of `analyzeTrace`: walk the sorted event list with the
array index `i`, the previous element's distance and the running
`currentLossTotal`; `start` events are skipped (`continue`) but still
advance the index and become the previous element. -/
def analyzeGo (coeff : ℚ) :
    List FiberEvent → ℕ → ℚ → ℚ → List AnalysisRecord
  | [], _, _, _ => []
  | e :: rest, i, prevDist, total =>
      if e.type = EventType.start then
        analyzeGo coeff rest (i + 1) e.distance total
      else
        let total1 := total + e.loss
        let pd := if i = 0 then 0 else prevDist
        let sectionLoss := (e.distance - pd) * coeff
        let total2 := total1 + sectionLoss
        { no := i, type := e.type, location := e.distance
          reflectanceShown := decide (-60 < e.reflectance)
          reflectance := e.reflectance
          lossShownAsCut := decide (e.type = EventType.cut)
          loss := e.loss, cumLoss := total2 } ::
          analyzeGo coeff rest (i + 1) e.distance total2

/-- `analyzeTrace` from the source: the ground-truth analysis table,
computed from the (cut-overlaid, sorted) topology. -/
def analyzeTrace (events : List FiberEvent) (cut : Option ℚ)
    (wavelength : ℕ) : List AnalysisRecord :=
  analyzeGo (calculateAttenuation wavelength)
    (sortByDistance (analyzerEvents events cut)) 0 0 0

/-- `const availableRanges = [5, 10, 20, 40, 80, 160, 300]` in the
auto-mode effect. -/
def availableRanges : List ℚ := [5, 10, 20, 40, 80, 160, 300]

/-- `maxDist` in the auto-mode effect: the `end` event's distance if one
exists (else `0`), replaced by the cut distance when a cut is active and
strictly nearer. -/
def maxDistOf (events : List FiberEvent) (cut : Option ℚ) : ℚ :=
  let m : ℚ :=
    ((events.find? (fun e => decide (e.type = EventType.fiberEnd))).map
      FiberEvent.distance).getD 0
  match cut with
  | none => m
  | some c => if c < m then c else m

/-- `const bestRange = availableRanges.find(r => r > maxDist * 1.2) || 300`. -/
def bestRangeOf (maxDist : ℚ) : ℚ :=
  (availableRanges.find? (fun r => decide (maxDist * 1.2 < r))).getD 300

/-- The auto pulse-width step table from the auto-mode effect. -/
def bestPulseOf (bestRange : ℚ) : ℚ :=
  if bestRange ≤ 5 then 10
  else if bestRange ≤ 20 then 100
  else if bestRange ≤ 40 then 500
  else if bestRange ≤ 80 then 1000
  else if bestRange ≤ 160 then 10000
  else 20000

/-- The full auto-mode selection: `{range, pulseWidth}`. -/
def autoSelect (events : List FiberEvent) (cut : Option ℚ) : ℚ × ℚ :=
  let r := bestRangeOf (maxDistOf events cut)
  (r, bestPulseOf r)

/-- One accumulation step of the acquisition loop:
`prev.length === 0 ? Array.from(newRawTrace)
               : prev.map((val, i) => val + newRawTrace[i])`.
Both arrays always have `numPoints` entries in the source, so the
index-wise map is modelled as `zipWith (+)`. -/
def accumStep (prev newRaw : List ℚ) : List ℚ :=
  if prev.length = 0 then newRaw else prev.zipWith (· + ·) newRaw

/-- The accumulator contents after folding a sequence of shots into the
initially empty `accumulatedY`. -/
def sumShots (shots : List (List ℚ)) : List ℚ :=
  shots.foldl accumStep []

/-- `{ x: i * stepSize, y: ys[i] }` points for a raw shot, with
`stepSize = config.range / numPoints` where `numPoints = ys.length`
(as in the display effect). -/
def tracePointsOf (range : ℚ) (ys : List ℚ) : List TracePoint :=
  (List.range ys.length).map
    (fun (i : ℕ) =>
      { x := (i : ℚ) * (range / (ys.length : ℚ)), y := ys.getD i 0 })

/-- The display-trace effect from the source: when the accumulator is
non-empty and the sample count positive, show `accumulatedY[i] /
sampleCount`; otherwise, only when not simulating and no trace is shown,
compute and show one fresh `calculateSingleTrace` (which is not added to
the accumulator); in every other case the shown trace is left unchanged. -/
def displayEffect (cfg : SimulationConfig) (events : List FiberEvent)
    (cut : Option ℚ) (log10PulseWidth : ℚ) (rng : ℕ → ℚ)
    (accumulatedY : List ℚ) (sampleCount : ℕ) (isSimulating : Bool)
    (traceData : List TracePoint) : List TracePoint :=
  if 0 < accumulatedY.length ∧ 0 < sampleCount then
    (List.range accumulatedY.length).map
      (fun (i : ℕ) =>
        { x := (i : ℚ) * (cfg.range / (accumulatedY.length : ℚ))
          y := accumulatedY.getD i 0 / (sampleCount : ℚ) })
  else if isSimulating = false ∧ traceData.length = 0 then
    tracePointsOf cfg.range
      (calculateSingleTrace cfg events cut log10PulseWidth rng)
  else traceData

/-- A deterministic random oracle stuck at `1/2`: `(0.5 - 0.5) = 0`, so
every noise draw is exactly zero. -/
def rngHalf : ℕ → ℚ := fun _ => 1 / 2

/-- A concrete configuration used to exercise the synthesizer at sample
index `0` (`range = 4`, `ior = 1` keep the arithmetic small). -/
def c1cfg : SimulationConfig :=
  { range := 4, pulseWidth := 100, wavelength := 1550, ior := 1
    noiseFloor := -60 }

/-- A single lossless event at distance `0` whose reflectance `-62` lies in
the band `(-65, -60]`. -/
def c1events : List FiberEvent :=
  [{ id := "r", type := EventType.connector, distance := 0, loss := 0
     reflectance := -62 }]

/-- A configuration with `pulseWidth = 10` ns, for which
`Math.log10(pulseWidth) = 1` exactly. -/
def c2cfg : SimulationConfig :=
  { range := 5, pulseWidth := 10, wavelength := 1550, ior := 1.4682
    noiseFloor := -60 }

/-- A configuration with `pulseWidth = 0` (the `ConfigurationError` input of
claim C8): `Math.log10(0) = -Infinity` in JavaScript, but the dead-zone
denominator guard is independent of the noise oracle, so `0` is passed for
the log value. -/
def c8cfg : SimulationConfig :=
  { range := 20, pulseWidth := 0, wavelength := 1550, ior := 1.4682
    noiseFloor := -60 }

/-- The source's default configuration (`useState<SimulationConfig>`),
restricted to the fields the core reads; `Math.log10(100) = 2`. -/
def defaultCfg : SimulationConfig :=
  { range := 20, pulseWidth := 100, wavelength := 1550, ior := 1.4682
    noiseFloor := -60 }

/-! ## Helper lemmas about the synthesizer loop -/

theorem jsMax_eq_max (a b : ℚ) : jsMax a b = max a b := by
  rw [jsMax, max_def]

theorem shotFrom_succ (ctx : ShotCtx) (s : ShotState) (i n : ℕ) :
    shotFrom ctx s i (n + 1) =
      (shotSample ctx s i).1 :: shotFrom ctx (shotSample ctx s i).2 (i + 1) n :=
  rfl

theorem shotFrom_length (ctx : ShotCtx) :
    ∀ (n : ℕ) (s : ShotState) (i : ℕ), (shotFrom ctx s i n).length = n := by
  intro n
  induction n with
  | zero => intro s i; rfl
  | succ n ih => intro s i; simp [shotFrom, ih]

theorem calculateSingleTrace_length (cfg : SimulationConfig)
    (events : List FiberEvent) (cut : Option ℚ) (l : ℚ) (rng : ℕ → ℚ) :
    (calculateSingleTrace cfg events cut l rng).length = numPoints :=
  shotFrom_length _ _ _ _

theorem shotSampleRest_value_bound (ctx : ShotCtx) (i : ℕ)
    (d ideal reflAdd : ℚ) (jt : Bool) (du ps cp : ℚ) (en : ℕ)
    (hA : 0 ≤ ctx.noiseAmplitude) (hr0 : 0 ≤ ctx.rng i) (hr1 : ctx.rng i ≤ 1) :
    ctx.noiseFloor - ctx.noiseAmplitude ≤
      (shotSampleRest ctx i d ideal reflAdd jt du ps cp en).value := by
  unfold shotSampleRest
  dsimp only
  have hn1 : -(ctx.noiseAmplitude / 2) ≤ (ctx.rng i - 0.5) * ctx.noiseAmplitude := by
    nlinarith
  have hn2 : (ctx.rng i - 0.5) * ctx.noiseAmplitude ≤ ctx.noiseAmplitude / 2 := by
    nlinarith
  split_ifs <;> linarith

theorem shotSampleStep_value_bound (ctx : ShotCtx) (s : ShotState) (i : ℕ)
    (hA : 0 ≤ ctx.noiseAmplitude) (hr0 : 0 ≤ ctx.rng i) (hr1 : ctx.rng i ≤ 1) :
    ctx.noiseFloor - ctx.noiseAmplitude ≤ (shotSampleStep ctx s i).value := by
  unfold shotSampleStep
  cases h : triggeredEvent ctx s i with
  | none => exact shotSampleRest_value_bound ctx i _ _ _ _ _ _ _ _ hA hr0 hr1
  | some e => exact shotSampleRest_value_bound ctx i _ _ _ _ _ _ _ _ hA hr0 hr1

theorem shotFrom_mem_bound (ctx : ShotCtx)
    (hA : 0 ≤ ctx.noiseAmplitude)
    (hrng : ∀ j, 0 ≤ ctx.rng j ∧ ctx.rng j ≤ 1) :
    ∀ (n : ℕ) (s : ShotState) (i : ℕ),
      ∀ y ∈ shotFrom ctx s i n, ctx.noiseFloor - ctx.noiseAmplitude ≤ y := by
  intro n
  induction n with
  | zero => intro s i y hy; simp [shotFrom] at hy
  | succ n ih =>
      intro s i y hy
      simp only [shotFrom, List.mem_cons] at hy
      rcases hy with h | h
      · subst h
        exact shotSampleStep_value_bound ctx s i hA (hrng i).1 (hrng i).2
      · exact ih _ _ y h

theorem noiseAmplitudeOf_nonneg (l : ℚ) : 0 ≤ noiseAmplitudeOf l := by
  unfold noiseAmplitudeOf jsMax
  dsimp only
  split_ifs <;> linarith

theorem shotSampleStep_clamped (ctx : ShotCtx) (s : ShotState) (i : ℕ) :
    (shotSampleStep ctx s i).clamped =
      if ctx.effectiveEndDistance < (i : ℚ) * ctx.stepSize then ctx.noiseFloor
      else (shotSampleStep ctx s i).withPeak := by
  unfold shotSampleStep
  cases h : triggeredEvent ctx s i <;> rfl

theorem shotSampleStep_withPeak_triggered (ctx : ShotCtx) (s : ShotState)
    (i : ℕ) (e : FiberEvent) (ht : triggeredEvent ctx s i = some e) :
    (shotSampleStep ctx s i).withPeak =
      (shotSampleStep ctx s i).blended +
        (if -65 < e.reflectance then e.reflectance + 75 else 0) := by
  unfold shotSampleStep
  rw [ht]
  by_cases hr : (-65 : ℚ) < e.reflectance <;>
    simp [shotSampleRest, hr]

/-! ## Claim theorems -/

/-- Claim C7: for every valid config (`range > 0`, `pulseWidth > 0`,
`ior > 0`, `noiseFloor < 0`) and every topology, a single shot returns
exactly `numPoints = 4000` samples (finiteness is inherent to ℚ), and
every sample is at least `noiseFloor - noiseAmplitude`, where the random
draws lie in `[0, 1]`. -/
theorem shot_length_and_floor_bound (cfg : SimulationConfig)
    (events : List FiberEvent) (cut : Option ℚ) (l : ℚ) (rng : ℕ → ℚ)
    (hrange : 0 < cfg.range) (hpw : 0 < cfg.pulseWidth) (hior : 0 < cfg.ior)
    (hnf : cfg.noiseFloor < 0)
    (hrng : ∀ j, 0 ≤ rng j ∧ rng j ≤ 1) :
    (calculateSingleTrace cfg events cut l rng).length = numPoints ∧
      ∀ y ∈ calculateSingleTrace cfg events cut l rng,
        cfg.noiseFloor - noiseAmplitudeOf l ≤ y := by
  refine ⟨calculateSingleTrace_length cfg events cut l rng, ?_⟩
  intro y hy
  have h := shotFrom_mem_bound (shotCtxOf cfg events cut l rng)
    (noiseAmplitudeOf_nonneg l) hrng numPoints initialShotState 0 y hy
  exact h

/-- Witness for C7: the default configuration and topology with the
constant-`1/2` random oracle. -/
theorem shot_length_and_floor_bound_witness :
    (calculateSingleTrace defaultCfg defaultEvents none 2 rngHalf).length =
        numPoints ∧
      ∀ y ∈ calculateSingleTrace defaultCfg defaultEvents none 2 rngHalf,
        defaultCfg.noiseFloor - noiseAmplitudeOf 2 ≤ y :=
  shot_length_and_floor_bound defaultCfg defaultEvents none 2 rngHalf
    (by norm_num [defaultCfg]) (by norm_num [defaultCfg])
    (by norm_num [defaultCfg]) (by norm_num [defaultCfg])
    (fun _ => ⟨by norm_num [rngHalf], by norm_num [rngHalf]⟩)

/-- Claim C8: the dead-zone ratio's denominator is the guarded
`(eventDeadZone || 0.001)`, which is never zero for any configuration —
in particular when `pulseWidth = 0` (so `eventDeadZone = 0`) the guard
substitutes `0.001`. -/
theorem deadzone_denominator_never_zero (cfg : SimulationConfig)
    (events : List FiberEvent) (cut : Option ℚ) (l : ℚ) (rng : ℕ → ℚ) :
    deadZoneDenom (shotCtxOf cfg events cut l rng).eventDeadZone ≠ 0 ∧
      (cfg.pulseWidth = 0 →
        deadZoneDenom (shotCtxOf cfg events cut l rng).eventDeadZone =
          1 / 1000) := by
  constructor
  · unfold deadZoneDenom
    split_ifs with h
    · norm_num
    · exact h
  · intro hpw
    have hz : (shotCtxOf cfg events cut l rng).eventDeadZone = 0 := by
      simp [shotCtxOf, pulseLengthKmOf, hpw]
    rw [hz]
    norm_num [deadZoneDenom]

/-- Witness for C8: with `pulseWidth = 0` the guarded denominator is
exactly `0.001 = 1/1000`. -/
theorem deadzone_denominator_never_zero_witness :
    deadZoneDenom (shotCtxOf c8cfg defaultEvents none 0 rngHalf).eventDeadZone =
      1 / 1000 :=
  (deadzone_denominator_never_zero c8cfg defaultEvents none 0 rngHalf).2 rfl

/-- Claim C10: with no cut and no `end` event (or an `end` event at the
falsy distance `0`), the effective terminal distance is `config.range`;
every sample distance `i * range/4000` with `i < 4000` is strictly below
`range`, so the past-terminal rule never forces a sample to the noise
floor (the `clamped` stage equals the `withPeak` stage at every sample). -/
theorem no_end_event_uses_range (cfg : SimulationConfig)
    (events : List FiberEvent) (l : ℚ) (rng : ℕ → ℚ)
    (hend : ∀ e, (sortByDistance events).find?
        (fun x => decide (x.type = EventType.fiberEnd)) = some e →
        e.distance = 0)
    (hrange : 0 < cfg.range) :
    effectiveEndDistanceOf events none cfg.range = cfg.range ∧
      ∀ (s : ShotState) (i : ℕ), i < numPoints →
        (shotSampleStep (shotCtxOf cfg events none l rng) s i).clamped =
          (shotSampleStep (shotCtxOf cfg events none l rng) s i).withPeak := by
  have heff : effectiveEndDistanceOf events none cfg.range = cfg.range := by
    unfold effectiveEndDistanceOf
    cases hf : (sortByDistance events).find?
        (fun x => decide (x.type = EventType.fiberEnd)) with
    | none => rfl
    | some e => simp [hend e hf]
  refine ⟨heff, ?_⟩
  intro s i hi
  rw [shotSampleStep_clamped]
  have hstep : (shotCtxOf cfg events none l rng).stepSize =
      cfg.range / (numPoints : ℚ) := rfl
  have heff2 : (shotCtxOf cfg events none l rng).effectiveEndDistance =
      cfg.range := heff
  rw [hstep, heff2]
  have hi4000 : i < 4000 := by simpa [numPoints] using hi
  have hi' : (i : ℚ) ≤ 3999 := by
    have : i ≤ 3999 := by omega
    exact_mod_cast this
  have hnp : ((numPoints : ℕ) : ℚ) = 4000 := by norm_num [numPoints]
  have hd : (i : ℚ) * (cfg.range / (numPoints : ℚ)) < cfg.range := by
    rw [hnp]
    rw [div_eq_mul_inv, ← mul_assoc]
    rw [show (i : ℚ) * cfg.range * (4000 : ℚ)⁻¹ = ((i : ℚ) / 4000) * cfg.range by
      ring]
    have : (i : ℚ) / 4000 < 1 := by linarith [hi'.trans_lt (by norm_num : (3999 : ℚ) < 4000)]
    nlinarith
  rw [if_neg (by linarith)]

/-- Witness for C10: the empty topology (no `end` event) at range 20. -/
theorem no_end_event_uses_range_witness :
    effectiveEndDistanceOf [] none (20 : ℚ) = 20 ∧
      ∀ (s : ShotState) (i : ℕ), i < numPoints →
        (shotSampleStep (shotCtxOf defaultCfg [] none 2 rngHalf) s i).clamped =
          (shotSampleStep (shotCtxOf defaultCfg [] none 2 rngHalf) s i).withPeak := by
  have h := no_end_event_uses_range defaultCfg [] 2 rngHalf
    (by intro e he; simp [sortByDistance] at he) (by norm_num [defaultCfg])
  exact ⟨h.1, h.2⟩

/-- Counterexample to claim C2: at `pulseWidth = 10` ns one has
`Math.log10(pulseWidth) = 1`, and the code's amplitude
(`5.0 / (noiseReductionFactor || 1)` with factor `1/2`) is `10`, while the
claimed formula `5.0 / max(1, log10/2)` gives `5`.  The context built by
`calculateSingleTrace` for `pulseWidth = 10` indeed carries amplitude `10`. -/
theorem noise_amplitude_counterexample :
    noiseAmplitudeOf 1 = 10 ∧ noiseAmplitudeClaimed 1 = 5 ∧
      (shotCtxOf c2cfg defaultEvents none 1 rngHalf).noiseAmplitude = 10 := by
  refine ⟨?_, ?_, ?_⟩ <;>
    norm_num [noiseAmplitudeOf, noiseAmplitudeClaimed, jsMax, shotCtxOf]

/-- Claim C2 as amended: the single-shot amplitude is
`max(0.5, 5.0 / f)` where `f = log10(pulseWidth)/2` if that value is
nonzero and `1` otherwise (the JavaScript `||`-guard) — not
`max(0.5, 5.0 / max(1, f))`.  The two formulas agree whenever `f ≥ 1`
(i.e. `pulseWidth ≥ 100` ns) or `f = 0`; for `pulseWidth = 10` ns
(`log10 = 1`) the amplitude is `10.0`, not `5.0`. -/
theorem noise_amplitude_formula (l : ℚ) :
    noiseAmplitudeOf l =
        max 0.5 (5.0 / (if l = 0 then 1 else l / 2)) ∧
      (1 ≤ l / 2 ∨ l = 0 → noiseAmplitudeOf l = noiseAmplitudeClaimed l) ∧
      noiseAmplitudeOf 1 = 10 ∧
      ∀ (cfg : SimulationConfig) (events : List FiberEvent) (cut : Option ℚ)
        (rng : ℕ → ℚ),
        (shotCtxOf cfg events cut l rng).noiseAmplitude = noiseAmplitudeOf l := by
  refine ⟨?_, ?_, ?_, fun _ _ _ _ => rfl⟩
  · rw [noiseAmplitudeOf, jsMax_eq_max]
    have hiff : l / 2 = 0 ↔ l = 0 := by
      constructor <;> intro h <;> linarith
    rw [if_congr hiff rfl rfl]
  · intro h
    rcases h with h | h
    · rw [noiseAmplitudeOf, noiseAmplitudeClaimed]
      have h2 : jsMax 1 (l / 2) = l / 2 := by rw [jsMax, if_pos h]
      rw [h2]
      have hne : ¬(l / 2 = 0) := by intro h0; rw [h0] at h; linarith
      simp [hne]
    · subst h
      norm_num [noiseAmplitudeOf, noiseAmplitudeClaimed, jsMax]
  · norm_num [noiseAmplitudeOf, jsMax]

/-- Witness for the amended C2: at `log10(pulseWidth) = 2`
(`pulseWidth = 100` ns) the code's and the claimed formulas agree, both
giving `5/(2/2) = 5`. -/
theorem noise_amplitude_formula_witness :
    noiseAmplitudeOf 2 = noiseAmplitudeClaimed 2 :=
  (noise_amplitude_formula 2).2.1 (Or.inl (by norm_num))

/-- Counterexample to claim C1: a triggering event with reflectance
`-62 ∈ (-65, -60]` does get the reflection peak `-62 + 75 = 13` added at
its triggering sample.  At the concrete input the first sample of the shot
is `26`: the dead-zone ring-down contributes `13` (the `blended` stage) and
the peak adds another `13` on top — the claim says the peak must be absent
there, which would leave `13`. -/
theorem reflection_peak_counterexample :
    (calculateSingleTrace c1cfg c1events none 2 rngHalf).head? = some 26 ∧
      (shotSampleStep (shotCtxOf c1cfg c1events none 2 rngHalf)
          initialShotState 0).blended = 13 ∧
      (shotSampleStep (shotCtxOf c1cfg c1events none 2 rngHalf)
          initialShotState 0).reflectionAdd = 13 ∧
      (-65 : ℚ) < -62 ∧ (-62 : ℚ) ≤ -60 := by
  refine ⟨?_, ?_, ?_, by norm_num, by norm_num⟩
  · rw [calculateSingleTrace, show numPoints = 3999 + 1 from rfl, shotFrom_succ]
    norm_num +decide [shotSample, shotSampleStep, shotSampleRest, shotCtxOf,
      c1cfg, c1events, rngHalf, triggeredEvent, initialShotState,
      effectiveEventsSynth, effectiveEndDistanceOf, sortByDistance,
      insertByDistance, deadZoneDenom, pulseLengthKmOf, noiseAmplitudeOf,
      jsMax, calculateAttenuation, numPoints]
  · norm_num +decide [shotSampleStep, shotSampleRest, shotCtxOf, c1cfg,
      c1events, rngHalf, triggeredEvent, initialShotState,
      effectiveEventsSynth, effectiveEndDistanceOf, sortByDistance,
      insertByDistance, deadZoneDenom, pulseLengthKmOf, noiseAmplitudeOf,
      jsMax, calculateAttenuation, numPoints]
  · norm_num +decide [shotSampleStep, shotSampleRest, shotCtxOf, c1cfg,
      c1events, rngHalf, triggeredEvent, initialShotState,
      effectiveEventsSynth, effectiveEndDistanceOf, sortByDistance,
      insertByDistance, deadZoneDenom, pulseLengthKmOf, noiseAmplitudeOf,
      jsMax, calculateAttenuation, numPoints]

/-- Claim C1 as amended: in `calculateSingleTrace` the reflection peak
`reflectance + 75` is added onto the sample at the exact triggering index
whenever the triggering event's `reflectance > -65` — the same (single)
threshold that arms the dead-zone ring-down — and is absent only when
`reflectance ≤ -65`.  The `-60` threshold is not consulted by the
synthesizer (it is used by the analyzer's reflectance display and by the
animation), so events with reflectance in `(-65, -60]` also receive the
peak. -/
theorem reflection_peak_threshold (ctx : ShotCtx) (s : ShotState) (i : ℕ)
    (e : FiberEvent) (ht : triggeredEvent ctx s i = some e) :
    ((-65 : ℚ) < e.reflectance →
        (shotSampleStep ctx s i).withPeak =
          (shotSampleStep ctx s i).blended + (e.reflectance + 75)) ∧
      (e.reflectance ≤ -65 →
        (shotSampleStep ctx s i).withPeak = (shotSampleStep ctx s i).blended) := by
  constructor
  · intro hr
    rw [shotSampleStep_withPeak_triggered ctx s i e ht, if_pos hr]
  · intro hr
    rw [shotSampleStep_withPeak_triggered ctx s i e ht,
      if_neg (by linarith), add_zero]

/-- Witness for the amended C1: at the concrete counterexample input the
triggering event has reflectance `-62 > -65`, and the sample indeed equals
the ring-down value plus the peak `13`. -/
theorem reflection_peak_threshold_witness :
    (shotSampleStep (shotCtxOf c1cfg c1events none 2 rngHalf)
        initialShotState 0).withPeak =
      (shotSampleStep (shotCtxOf c1cfg c1events none 2 rngHalf)
          initialShotState 0).blended + ((-62 : ℚ) + 75) := by
  have ht : triggeredEvent (shotCtxOf c1cfg c1events none 2 rngHalf)
      initialShotState 0 =
      some { id := "r", type := EventType.connector, distance := 0, loss := 0
             reflectance := -62 } := by
    norm_num +decide [triggeredEvent, shotCtxOf, initialShotState,
      effectiveEventsSynth, sortByDistance, insertByDistance, c1events, c1cfg]
  exact (reflection_peak_threshold _ _ _ _ ht).1 (by norm_num)

/-! ## Helper lemmas about the stable sort and the analyzer -/

theorem mem_insertByDistance (a e : FiberEvent) :
    ∀ (l : List FiberEvent), a ∈ insertByDistance e l ↔ a = e ∨ a ∈ l := by
  intro l
  induction l with
  | nil => simp [insertByDistance]
  | cons f rest ih =>
      rw [insertByDistance]
      split_ifs with h
      · simp only [List.mem_cons, ih]
        tauto
      · simp only [List.mem_cons]

theorem mem_sortByDistance (a : FiberEvent) :
    ∀ (l : List FiberEvent), a ∈ sortByDistance l ↔ a ∈ l := by
  intro l
  induction l with
  | nil => simp [sortByDistance]
  | cons e rest ih =>
      rw [sortByDistance, mem_insertByDistance]
      simp [ih]

theorem head?_insertByDistance (e : FiberEvent) (l : List FiberEvent)
    (b : FiberEvent) (hb : (insertByDistance e l).head? = some b) :
    b = e ∨ l.head? = some b := by
  cases l with
  | nil => simp [insertByDistance] at hb; exact Or.inl hb.symm
  | cons f rest =>
      rw [insertByDistance] at hb
      split_ifs at hb with h
      · simp at hb
        exact Or.inr (by simp [hb])
      · simp at hb
        exact Or.inl hb.symm

theorem chain'_insertByDistance (e : FiberEvent) :
    ∀ (l : List FiberEvent),
      List.Chain' (fun a b => a.distance ≤ b.distance) l →
      List.Chain' (fun a b => a.distance ≤ b.distance)
        (insertByDistance e l) := by
  intro l
  induction l with
  | nil => intro _; simp [insertByDistance]
  | cons f rest ih =>
      intro hch
      have htail : List.Chain' (fun a b => a.distance ≤ b.distance) rest :=
        (List.chain'_cons'.mp hch).2
      have hhead : ∀ y ∈ rest.head?, f.distance ≤ y.distance :=
        (List.chain'_cons'.mp hch).1
      rw [insertByDistance]
      split_ifs with h
      · rw [List.chain'_cons']
        refine ⟨?_, ih htail⟩
        intro y hy
        rcases head?_insertByDistance e rest y hy with rfl | hy'
        · linarith
        · exact hhead y hy'
      · rw [List.chain'_cons']
        refine ⟨?_, hch⟩
        intro y hy
        simp at hy
        subst hy
        linarith [le_of_not_lt h]

theorem chain'_sortByDistance :
    ∀ (l : List FiberEvent),
      List.Chain' (fun a b => a.distance ≤ b.distance) (sortByDistance l) := by
  intro l
  induction l with
  | nil => simp [sortByDistance]
  | cons e rest ih => exact chain'_insertByDistance e _ ih

theorem analyzeGo_chain (coeff : ℚ) (hc : 0 ≤ coeff) :
    ∀ (l : List FiberEvent) (i : ℕ) (pd total : ℚ),
      List.Chain' (fun a b => a.distance ≤ b.distance) l →
      (∀ e ∈ l, 0 ≤ e.loss) →
      (∀ e, l.head? = some e → pd ≤ e.distance) →
      i ≠ 0 →
      List.Chain' (· ≤ ·)
          ((analyzeGo coeff l i pd total).map AnalysisRecord.cumLoss) ∧
        (∀ r, (analyzeGo coeff l i pd total).head? = some r →
          total ≤ r.cumLoss) := by
  intro l
  induction l with
  | nil =>
      intro i pd total _ _ _ _
      constructor
      · simp [analyzeGo]
      · intro r hr; simp [analyzeGo] at hr
  | cons e rest ih =>
      intro i pd total hch hloss hpd hi
      have htail : List.Chain' (fun a b => a.distance ≤ b.distance) rest :=
        (List.chain'_cons'.mp hch).2
      have hhead : ∀ y ∈ rest.head?, e.distance ≤ y.distance :=
        (List.chain'_cons'.mp hch).1
      have hlossr : ∀ f ∈ rest, 0 ≤ f.loss := fun f hf => hloss f (by simp [hf])
      have hpdr : ∀ f, rest.head? = some f → e.distance ≤ f.distance :=
        fun f hf => hhead f hf
      rw [analyzeGo]
      by_cases hstart : e.type = EventType.start
      · rw [if_pos hstart]
        exact ih (i + 1) e.distance total htail hlossr hpdr (by omega)
      · rw [if_neg hstart]
        dsimp only
        rw [if_neg hi]
        have hpde : pd ≤ e.distance := hpd e rfl
        have hle : 0 ≤ e.loss := hloss e (by simp)
        have htot_ge : total ≤ total + e.loss + (e.distance - pd) * coeff := by
          nlinarith
        have hrec := ih (i + 1) e.distance
          (total + e.loss + (e.distance - pd) * coeff) htail hlossr hpdr
          (by omega)
        constructor
        · simp only [List.map_cons]
          rw [List.chain'_cons']
          constructor
          · intro y hy
            rw [List.head?_map] at hy
            rcases Option.map_eq_some'.mp hy with ⟨r, hr, hry⟩
            have := hrec.2 r hr
            subst hry
            simpa using this
          · exact hrec.1
        · intro r hr
          simp only [List.head?_cons, Option.some.injEq] at hr
          subst hr
          simpa using htot_ge

theorem analyzeTrace_cumLoss_chain (events : List FiberEvent)
    (cut : Option ℚ) (wl : ℕ)
    (hloss : ∀ e ∈ events, 0 ≤ e.loss) :
    List.Chain' (· ≤ ·)
      ((analyzeTrace events cut wl).map AnalysisRecord.cumLoss) := by
  have hc : 0 ≤ calculateAttenuation wl := by
    unfold calculateAttenuation; split_ifs <;> norm_num
  have hlossA : ∀ e ∈ analyzerEvents events cut, 0 ≤ e.loss := by
    intro e he
    unfold analyzerEvents at he
    cases cut with
    | none => exact hloss e he
    | some c =>
        simp only [List.mem_append, List.mem_filter, List.mem_singleton] at he
        rcases he with ⟨he1, _⟩ | rfl
        · exact hloss e he1
        · norm_num
  have hlossS : ∀ e ∈ sortByDistance (analyzerEvents events cut), 0 ≤ e.loss :=
    fun e he => hlossA e ((mem_sortByDistance e _).mp he)
  have hch := chain'_sortByDistance (analyzerEvents events cut)
  rw [analyzeTrace]
  cases hL : sortByDistance (analyzerEvents events cut) with
  | nil => simp [analyzeGo]
  | cons e rest =>
      rw [hL] at hch hlossS
      have htail : List.Chain' (fun a b => a.distance ≤ b.distance) rest :=
        (List.chain'_cons'.mp hch).2
      have hhead : ∀ y ∈ rest.head?, e.distance ≤ y.distance :=
        (List.chain'_cons'.mp hch).1
      have hlossr : ∀ f ∈ rest, 0 ≤ f.loss := fun f hf => hlossS f (by simp [hf])
      rw [analyzeGo]
      by_cases hstart : e.type = EventType.start
      · rw [if_pos hstart]
        exact (analyzeGo_chain _ hc rest 1 e.distance 0 htail hlossr
          (fun f hf => hhead f hf) (by omega)).1
      · rw [if_neg hstart]
        dsimp only
        rw [if_pos rfl]
        have hrec := analyzeGo_chain _ hc rest 1 e.distance
          (0 + e.loss + (e.distance - 0) * calculateAttenuation wl)
          htail hlossr (fun f hf => hhead f hf) (by omega)
        simp only [List.map_cons]
        rw [List.chain'_cons']
        constructor
        · intro y hy
          rw [List.head?_map] at hy
          rcases Option.map_eq_some'.mp hy with ⟨r, hr, hry⟩
          have := hrec.2 r hr
          subst hry
          simpa using this
        · exact hrec.1

/-- Claim C6: for every topology whose events all have `loss ≥ 0`, the
cumulative-loss values emitted by the analyzer (which walks the events in
ascending distance) are non-decreasing in record order, for any cut overlay
and wavelength. -/
theorem analyzer_cumulative_loss_monotone (events : List FiberEvent)
    (cut : Option ℚ) (wl : ℕ)
    (hloss : ∀ e ∈ events, 0 ≤ e.loss) :
    List.Chain' (· ≤ ·)
      ((analyzeTrace events cut wl).map AnalysisRecord.cumLoss) :=
  analyzeTrace_cumLoss_chain events cut wl hloss

/-- Witness for C6: the default topology (all losses `≥ 0`) with a cut at
10 km. -/
theorem analyzer_cumulative_loss_monotone_witness :
    List.Chain' (· ≤ ·)
      ((analyzeTrace defaultEvents (some 10) 1550).map
        AnalysisRecord.cumLoss) := by
  refine analyzer_cumulative_loss_monotone defaultEvents (some 10) 1550 ?_
  intro e he
  simp only [defaultEvents, List.mem_cons, List.not_mem_nil, or_false] at he
  rcases he with rfl | rfl | rfl | rfl <;> norm_num

/-- Claim C5: for the default topology
`[start@0 loss .5, splice@5.2 loss .1, connector@12.5 loss .5, end@18 loss 0]`
at 1550 nm (coefficient `0.20` dB/km) with no cut, the analyzer emits
cumulative losses `1.14, 3.10, 4.20`: the start's own `0.5` loss is skipped,
and each record adds `event.loss + (distance - previousDistance) * 0.20`;
the `end` record reads exactly `4.20` dB. -/
theorem analyzer_default_topology_end_loss :
    (analyzeTrace defaultEvents none 1550).map AnalysisRecord.cumLoss =
        [1.14, 3.10, 4.20] ∧
      ((analyzeTrace defaultEvents none 1550).getLast?).map
          AnalysisRecord.cumLoss = some 4.20 := by
  constructor <;>
    norm_num +decide [analyzeTrace, analyzeGo, analyzerEvents, sortByDistance,
      insertByDistance, defaultEvents, calculateAttenuation]

/-- Counterexample to claim C3: with a cut at 10 km over the default
topology, the analyzer's synthetic cut record carries `loss = 0` (not 50)
and its cumulative loss is `2.1 = 0.1 + 5.2*0.2 + 0 + (10-5.2)*0.2` dB —
strictly below 50, so the 50 dB cut loss is NOT included in the
cumulative-loss column. -/
theorem analyzer_cut_loss_counterexample :
    ((analyzeTrace defaultEvents (some 10) 1550).getLast?).map
        (fun r => (r.type, r.loss, r.cumLoss)) =
      some (EventType.cut, 0, 2.1) ∧ (2.1 : ℚ) < 50 := by
  refine ⟨?_, by norm_num⟩
  norm_num +decide [analyzeTrace, analyzeGo, analyzerEvents, sortByDistance,
    insertByDistance, defaultEvents, calculateAttenuation, List.filter]

/-- Claim C3 as amended: every consumer discards events with
`distance ≥ d` and appends a synthetic cut at `d` with reflectance `-14`,
but with different loss fields: the synthesizer's cut carries `loss = 50`,
while the analyzer's cut carries `loss = 0` (its loss column only displays
the string `"> 50.0"`, flagged here by `lossShownAsCut`), so the analyzer's
cumulative-loss column does not include the 50 dB: concretely, for the
default topology cut at 10 km the cut record shows `loss` displayed as
`"> 50.0"` but cumulative loss `2.1`. -/
theorem cut_overlay_event_fields (events : List FiberEvent) (c : ℚ) :
    (∃ pre, effectiveEventsSynth events (some c) =
        pre ++ [{ id := "cut-point", type := EventType.cut, distance := c,
                  loss := 50, reflectance := -14 }] ∧
        ∀ e ∈ pre, e.distance < c) ∧
      (∃ pre, analyzerEvents events (some c) =
        pre ++ [{ id := "cut", type := EventType.cut, distance := c,
                  loss := 0, reflectance := -14 }] ∧
        ∀ e ∈ pre, e.distance < c) ∧
      ((analyzeTrace defaultEvents (some 10) 1550).map
          (fun r => (r.lossShownAsCut, r.loss, r.cumLoss))) =
        [(false, 0.1, 1.14), (true, 0, 2.1)] := by
  refine ⟨⟨(sortByDistance events).filter
      (fun e => decide (e.distance < c)), rfl, ?_⟩,
    ⟨events.filter (fun e => decide (e.distance < c)), rfl, ?_⟩, ?_⟩
  · intro e he
    exact of_decide_eq_true (List.mem_filter.mp he).2
  · intro e he
    exact of_decide_eq_true (List.mem_filter.mp he).2
  · norm_num +decide [analyzeTrace, analyzeGo, analyzerEvents, sortByDistance,
      insertByDistance, defaultEvents, calculateAttenuation, List.filter]

/-- Witness for the amended C3: the concrete two-record analyzer table with
a cut at 10 km over the default topology. -/
theorem cut_overlay_event_fields_witness :
    ((analyzeTrace defaultEvents (some 10) 1550).map
        (fun r => (r.lossShownAsCut, r.loss, r.cumLoss))) =
      [(false, 0.1, 1.14), (true, 0, 2.1)] :=
  (cut_overlay_event_fields defaultEvents 10).2.2

/-! ## Auto-range selection (claim C4) -/

theorem bestRangeOf_eq_ite (m : ℚ) :
    bestRangeOf m =
      if m * 1.2 < 5 then 5 else if m * 1.2 < 10 then 10
      else if m * 1.2 < 20 then 20 else if m * 1.2 < 40 then 40
      else if m * 1.2 < 80 then 80 else if m * 1.2 < 160 then 160
      else 300 := by
  unfold bestRangeOf availableRanges
  by_cases h5 : m * 1.2 < 5
  · rw [List.find?_cons_of_pos _ (by simpa using h5)]
    simp [h5]
  · rw [List.find?_cons_of_neg _ (by simpa using h5)]
    by_cases h10 : m * 1.2 < 10
    · rw [List.find?_cons_of_pos _ (by simpa using h10)]
      simp [h5, h10]
    · rw [List.find?_cons_of_neg _ (by simpa using h10)]
      by_cases h20 : m * 1.2 < 20
      · rw [List.find?_cons_of_pos _ (by simpa using h20)]
        simp [h5, h10, h20]
      · rw [List.find?_cons_of_neg _ (by simpa using h20)]
        by_cases h40 : m * 1.2 < 40
        · rw [List.find?_cons_of_pos _ (by simpa using h40)]
          simp [h5, h10, h20, h40]
        · rw [List.find?_cons_of_neg _ (by simpa using h40)]
          by_cases h80 : m * 1.2 < 80
          · rw [List.find?_cons_of_pos _ (by simpa using h80)]
            simp [h5, h10, h20, h40, h80]
          · rw [List.find?_cons_of_neg _ (by simpa using h80)]
            by_cases h160 : m * 1.2 < 160
            · rw [List.find?_cons_of_pos _ (by simpa using h160)]
              simp [h5, h10, h20, h40, h80, h160]
            · rw [List.find?_cons_of_neg _ (by simpa using h160)]
              by_cases h300 : m * 1.2 < 300
              · rw [List.find?_cons_of_pos _ (by simpa using h300)]
                simp [h5, h10, h20, h40, h80, h160]
              · rw [List.find?_cons_of_neg _ (by simpa using h300)]
                simp [h5, h10, h20, h40, h80, h160]

/-- Claim C4: the auto-range selection returns the smallest candidate in
the fixed ladder `{5,10,20,40,80,160,300}` strictly greater than
`1.2 × maxDistance` (or `300` if none qualifies), with
`maxDistance = min(end distance, cut distance)` when both exist; the
chosen range maps to pulse width by the step table
`≤5→10, ≤20→100, ≤40→500, ≤80→1000, ≤160→10000, else→20000`; for the
default topology (`maxDistance = 18`, threshold `21.6`) the selection is
`(40, 500)`. -/
theorem auto_range_selection (m : ℚ) :
    bestRangeOf m ∈ availableRanges ∧
      (m * 1.2 < 300 → m * 1.2 < bestRangeOf m) ∧
      (∀ r ∈ availableRanges, m * 1.2 < r → bestRangeOf m ≤ r) ∧
      (300 ≤ m * 1.2 → bestRangeOf m = 300) ∧
      (∀ (events : List FiberEvent) (c : ℚ) (e : FiberEvent),
        events.find? (fun x => decide (x.type = EventType.fiberEnd)) = some e →
        maxDistOf events (some c) = min e.distance c) ∧
      autoSelect defaultEvents none = (40, 500) ∧
      (∀ r : ℚ, (r ≤ 5 → bestPulseOf r = 10) ∧
        (5 < r ∧ r ≤ 20 → bestPulseOf r = 100) ∧
        (20 < r ∧ r ≤ 40 → bestPulseOf r = 500) ∧
        (40 < r ∧ r ≤ 80 → bestPulseOf r = 1000) ∧
        (80 < r ∧ r ≤ 160 → bestPulseOf r = 10000) ∧
        (160 < r → bestPulseOf r = 20000)) := by
  refine ⟨?_, ?_, ?_, ?_, ?_, ?_, ?_⟩
  · rw [bestRangeOf_eq_ite]
    split_ifs <;> simp [availableRanges]
  · intro h300
    rw [bestRangeOf_eq_ite]
    split_ifs <;> linarith
  · intro r hr hq
    rw [bestRangeOf_eq_ite]
    fin_cases hr <;> split_ifs <;> linarith
  · intro h300
    rw [bestRangeOf_eq_ite]
    split_ifs <;> linarith
  · intro events c e hfind
    unfold maxDistOf
    rw [hfind]
    simp only [Option.map_some', Option.getD_some]
    rcases lt_or_le c e.distance with hc | hc
    · rw [if_pos hc]
      exact (min_eq_right (le_of_lt hc)).symm
    · rw [if_neg (not_lt.mpr hc)]
      exact (min_eq_left hc).symm
  · have h18 : maxDistOf defaultEvents none = 18 := by
      norm_num +decide [maxDistOf, defaultEvents, List.find?]
    have hr : bestRangeOf 18 = 40 := by
      rw [bestRangeOf_eq_ite]
      norm_num
    rw [autoSelect, h18, hr]
    norm_num [bestPulseOf]
  · intro r
    refine ⟨?_, ?_, ?_, ?_, ?_, ?_⟩
    · intro h
      rw [bestPulseOf, if_pos h]
    · intro h
      rw [bestPulseOf, if_neg (by linarith), if_pos h.2]
    · intro h
      rw [bestPulseOf, if_neg (by linarith), if_neg (by linarith), if_pos h.2]
    · intro h
      rw [bestPulseOf, if_neg (by linarith), if_neg (by linarith),
        if_neg (by linarith), if_pos h.2]
    · intro h
      rw [bestPulseOf, if_neg (by linarith), if_neg (by linarith),
        if_neg (by linarith), if_neg (by linarith), if_pos h.2]
    · intro h
      rw [bestPulseOf, if_neg (by linarith), if_neg (by linarith),
        if_neg (by linarith), if_neg (by linarith), if_neg (by linarith)]

/-- Witness for C4: at `maxDistance = 18` the chosen range `40` exceeds
`21.6`, is minimal among qualifying candidates, and the full selection on
the default topology is `(40, 500)`. -/
theorem auto_range_selection_witness :
    (18 : ℚ) * 1.2 < bestRangeOf 18 ∧ bestRangeOf 18 ≤ 40 ∧
      autoSelect defaultEvents none = (40, 500) :=
  ⟨(auto_range_selection 18).2.1 (by norm_num),
    (auto_range_selection 18).2.2.1 40 (by norm_num [availableRanges])
      (by norm_num),
    (auto_range_selection 18).2.2.2.2.2.1⟩

/-! ## Accumulation and display (claim C9) -/

theorem accumStep_length (acc s : List ℚ) (n : ℕ) (ha : acc.length = n)
    (hs : s.length = n) : (accumStep acc s).length = n := by
  rw [accumStep]
  split_ifs with h
  · exact hs
  · rw [List.length_zipWith, ha, hs, min_self]

theorem accumStep_getD (acc s : List ℚ) (n : ℕ) (ha : acc.length = n)
    (hs : s.length = n) (hn : n ≠ 0) (i : ℕ) (hi : i < n) :
    (accumStep acc s).getD i 0 = acc.getD i 0 + s.getD i 0 := by
  rw [accumStep, if_neg (by omega)]
  have hiz : i < (acc.zipWith (· + ·) s).length := by
    rw [List.length_zipWith, ha, hs, min_self]; exact hi
  rw [List.getD_eq_getElem _ _ hiz, List.getElem_zipWith,
    List.getD_eq_getElem _ _ (by omega), List.getD_eq_getElem _ _ (by omega)]

theorem foldl_accumStep_spec (n : ℕ) (hn : n ≠ 0) :
    ∀ (shots : List (List ℚ)) (acc : List ℚ), acc.length = n →
      (∀ s ∈ shots, s.length = n) →
      (shots.foldl accumStep acc).length = n ∧
        ∀ i, i < n → (shots.foldl accumStep acc).getD i 0 =
          acc.getD i 0 + (shots.map (fun s => s.getD i 0)).sum := by
  intro shots
  induction shots with
  | nil =>
      intro acc ha _
      exact ⟨ha, fun i _ => by simp⟩
  | cons s rest ih =>
      intro acc ha hlen
      have hs : s.length = n := hlen s (by simp)
      have ha' : (accumStep acc s).length = n := accumStep_length acc s n ha hs
      have hrest : ∀ t ∈ rest, t.length = n := fun t ht => hlen t (by simp [ht])
      have h := ih (accumStep acc s) ha' hrest
      refine ⟨by simpa using h.1, ?_⟩
      intro i hi
      have h2 := h.2 i hi
      simp only [List.foldl_cons]
      rw [h2, accumStep_getD acc s n ha hs hn i hi]
      simp [add_assoc]

theorem sumShots_spec (shots : List (List ℚ)) (hne : shots ≠ [])
    (hlen : ∀ s ∈ shots, s.length = numPoints) :
    (sumShots shots).length = numPoints ∧
      ∀ i, i < numPoints → (sumShots shots).getD i 0 =
        (shots.map (fun s => s.getD i 0)).sum := by
  cases shots with
  | nil => exact absurd rfl hne
  | cons s rest =>
      have hs : s.length = numPoints := hlen s (by simp)
      have hrest : ∀ t ∈ rest, t.length = numPoints :=
        fun t ht => hlen t (by simp [ht])
      have hstep : sumShots (s :: rest) = rest.foldl accumStep s := by
        simp [sumShots, accumStep]
      rw [hstep]
      have h := foldl_accumStep_spec numPoints (by norm_num [numPoints])
        rest s hs hrest
      refine ⟨h.1, ?_⟩
      intro i hi
      rw [h.2 i hi]
      simp

/-- Claim C9 as amended: the accumulator after `k ≥ 1` shots holds the
elementwise sum of those shots, and while it is non-empty with positive
count the displayed trace's `i`-th y-value is `sum[i]/count`.  When the
count is zero, a fresh on-demand shot (not added to the accumulator — the
display computation never touches it) is shown only in the
not-simulating-and-no-trace-shown case; with `count = 0` while simulating,
the previously displayed trace is kept unchanged, whatever it is. -/
theorem display_trace_average (cfg : SimulationConfig)
    (events : List FiberEvent) (cut : Option ℚ) (l : ℚ) (rng : ℕ → ℚ)
    (shots : List (List ℚ)) (hne : shots ≠ [])
    (hlen : ∀ s ∈ shots, s.length = numPoints)
    (isSim : Bool) (td : List TracePoint) :
    (sumShots shots).length = numPoints ∧
      (∀ i, i < numPoints →
        ((displayEffect cfg events cut l rng (sumShots shots) shots.length
            isSim td).map TracePoint.y).getD i 0 =
          (shots.map (fun s => s.getD i 0)).sum / (shots.length : ℚ)) ∧
      displayEffect cfg events cut l rng [] 0 false [] =
        tracePointsOf cfg.range (calculateSingleTrace cfg events cut l rng) ∧
      (∀ (acc : List ℚ) (td' : List TracePoint),
        displayEffect cfg events cut l rng acc 0 true td' = td') := by
  have hsum := sumShots_spec shots hne hlen
  refine ⟨hsum.1, ?_, ?_, ?_⟩
  · intro i hi
    have hcount : 0 < shots.length := List.length_pos.mpr hne
    have hacc : 0 < (sumShots shots).length := by
      rw [hsum.1]; norm_num [numPoints]
    rw [displayEffect, if_pos ⟨hacc, hcount⟩]
    have hi' : i < (sumShots shots).length := by rw [hsum.1]; exact hi
    have hlmap : i < ((List.range (sumShots shots).length).map
        (fun (j : ℕ) =>
          ({ x := (j : ℚ) * (cfg.range / ((sumShots shots).length : ℚ))
             y := (sumShots shots).getD j 0 / (shots.length : ℚ) } :
            TracePoint))).length := by
      simpa using hi'
    rw [List.getD_eq_getElem _ _ (by simpa using hlmap)]
    simp only [List.getElem_map, List.getElem_range]
    rw [hsum.2 i hi]
  · rw [displayEffect]
    norm_num
  · intro acc td'
    rw [displayEffect]
    norm_num

/-- Counterexample to claim C9: with `count = 0` but `isSimulating = true`
(the state right after pressing START, before the first tick) the display
effect leaves the previously shown trace unchanged — it is NOT replaced by
a fresh single shot (the fresh shot has `4000` points, the kept trace here
has one). -/
theorem display_fallback_counterexample :
    displayEffect defaultCfg defaultEvents none 2 rngHalf [] 0 true
        [{ x := 0, y := -5 }] = [{ x := 0, y := -5 }] ∧
      displayEffect defaultCfg defaultEvents none 2 rngHalf [] 0 true
          [{ x := 0, y := -5 }] ≠
        tracePointsOf defaultCfg.range
          (calculateSingleTrace defaultCfg defaultEvents none 2 rngHalf) := by
  have h1 : displayEffect defaultCfg defaultEvents none 2 rngHalf [] 0 true
      [{ x := 0, y := -5 }] = [{ x := 0, y := -5 }] := by
    rw [displayEffect]
    norm_num
  refine ⟨h1, ?_⟩
  rw [h1]
  intro h
  have hlen := congrArg List.length h
  rw [tracePointsOf] at hlen
  simp only [List.length_cons, List.length_nil, List.length_map,
    List.length_range, calculateSingleTrace_length] at hlen
  norm_num [numPoints] at hlen

/-- Witness for the amended C9: a one-shot accumulation (the shot being an
actual `calculateSingleTrace` output of length 4000), and the
count-zero-not-simulating fallback showing exactly one fresh shot. -/
theorem display_trace_average_witness :
    (sumShots [calculateSingleTrace defaultCfg defaultEvents none 2
        rngHalf]).length = numPoints ∧
      displayEffect defaultCfg defaultEvents none 2 rngHalf [] 0 false [] =
        tracePointsOf defaultCfg.range
          (calculateSingleTrace defaultCfg defaultEvents none 2 rngHalf) := by
  have h := display_trace_average defaultCfg defaultEvents none 2 rngHalf
    [calculateSingleTrace defaultCfg defaultEvents none 2 rngHalf]
    (by simp)
    (by
      intro s hs
      simp only [List.mem_singleton] at hs
      subst hs
      exact calculateSingleTrace_length _ _ _ _ _)
    false []
  exact ⟨h.1, h.2.2.1⟩

end OTDR
